import Mathlib

/-!
Verification of the asynchronous task utilities of the moodleapp repository
(file src/core/services/utils/utils.ts), via a shallow embedding.

A settled JavaScript promise is modelled denotationally by the instant at
which it settles together with its outcome (`Prom`).  Primitives whose
behaviour depends on the interleaving of callbacks (`timeoutPromise`,
`promiseDefer`) are modelled operationally, as step functions over an
explicit state, with the native settle-once guarantee of JavaScript
promises embedded in the state transition.
-/

namespace MoodleUtils

instance {ε α : Type} [DecidableEq ε] [DecidableEq α] : DecidableEq (Except ε α) :=
  fun a b =>
    match a, b with
    | .ok v, .ok w => if h : v = w then .isTrue (by rw [h]) else .isFalse (by simp [h])
    | .ok _, .error _ => .isFalse (by simp)
    | .error _, .ok _ => .isFalse (by simp)
    | .error e, .error f => if h : e = f then .isTrue (by rw [h]) else .isFalse (by simp [h])

/-- A promise that eventually settles: the time at which it settles and its
outcome (`ok` for fulfilment, `err` for rejection). -/
structure Prom (ε α : Type) where
  time : Nat
  result : Except ε α
deriving DecidableEq

/-- Embeds the inner helper `getPromiseError` of `allPromises`: awaiting the
promise inside a try/catch yields a promise that always fulfils, at the same
time, carrying the rejection reason when there was one. -/
def getPromiseError (p : Prom ε α) : Prom ε (Option ε) :=
  ⟨p.time, .ok (match p.result with | .error e => some e | .ok _ => none)⟩

/-- The instant at which `Promise.all` over the given promises settles when
every one of them fulfils: the latest settlement time (0 when empty). -/
def settleTime (ps : List (Prom ε α)) : Nat :=
  ps.foldr (fun p acc => max p.time acc) 0

/-- The rejection reason of some promise of `p.result` form `.error e`. -/
def errOf (p : Prom ε α) : Option ε :=
  match p.result with | .error e => some e | .ok _ => none

/-- The rejection reason of the first rejected promise, in sequence order. -/
def firstError (ps : List (Prom ε α)) : Option ε :=
  ps.findSome? errOf

/-- Embeds `allPromises(promises)` of utils.ts.  The JavaScript argument may
be `null` or `undefined`, which the guard `!promises` absorbs; both are
modelled by `none`.  Otherwise the code maps every promise through
`getPromiseError`, awaits `Promise.all` of the results (so it settles at the
latest settlement time), scans the collected errors with
`errors.find(error => !!error)` and throws the first one found.  Rejection
reasons have the TypeScript type `Error`, whose values are always truthy, so
the truthiness test is `Option.isSome`. -/
def allPromises : Option (List (Prom ε α)) → Prom ε Unit
  | none => ⟨0, .ok ()⟩
  | some ps =>
    if ps.length = 0 then ⟨0, .ok ()⟩
    else
      let mapped := ps.map getPromiseError
      let errors := mapped.map fun q => match q.result with | .ok v => v | .error e => some e
      match errors.find? Option.isSome with
      | some (some e) => ⟨settleTime mapped, .error e⟩
      | _ => ⟨settleTime mapped, .ok ()⟩

/-- Embeds `ignoreErrors(promise, fallback)` of utils.ts: await the promise;
on fulfilment return its value, on rejection return the fallback.  The
absent-fallback overload corresponds to `fallback = none`, the JavaScript
`undefined`; the value channel is therefore `Option α`, with `none` standing
for `undefined`.  The returned promise always fulfils, at the same time. -/
def ignoreErrors (p : Prom ε α) (fallback : Option α) : Prom ε (Option α) :=
  ⟨p.time, .ok (match p.result with | .ok v => some v | .error _ => fallback)⟩

/-- Embeds `allPromisesIgnoringErrors(promises)`:
`await ignoreErrors(allPromises(promises))`. -/
def allPromisesIgnoringErrors (promises : Option (List (Prom ε α))) :
    Prom ε (Option Unit) :=
  ignoreErrors (allPromises promises) none

/- Helper lemmas about allPromises. -/

theorem find?_isSome_eq_findSome? (l : List (Option ε)) :
    l.find? Option.isSome = (l.findSome? id).map some := by
  induction l with
  | nil => rfl
  | cons a t ih =>
    cases a with
    | none => simpa [List.find?, List.findSome?] using ih
    | some e => simp [List.find?, List.findSome?]

theorem errors_map_eq (ps : List (Prom ε α)) :
    (ps.map getPromiseError).map
        (fun q => match q.result with | .ok v => v | .error e => some e)
      = ps.map errOf := by
  induction ps with
  | nil => rfl
  | cons p t ih => simp [getPromiseError, errOf, ih]

theorem findSome?_id_map_errOf (ps : List (Prom ε α)) :
    (ps.map errOf).findSome? id = firstError ps := by
  induction ps with
  | nil => rfl
  | cons p t ih =>
    simp only [firstError] at ih ⊢
    cases h : errOf p <;> simp [List.findSome?, h, ih]

theorem settleTime_map_getPromiseError (ps : List (Prom ε α)) :
    settleTime (ps.map getPromiseError) = settleTime ps := by
  induction ps with
  | nil => rfl
  | cons p t ih =>
    simp only [settleTime, List.foldr, List.map] at ih ⊢
    rw [ih]
    rfl

theorem time_le_settleTime (ps : List (Prom ε α)) (p : Prom ε α) (hp : p ∈ ps) :
    p.time ≤ settleTime ps := by
  induction ps with
  | nil => cases hp
  | cons q t ih =>
    rcases List.mem_cons.mp hp with h | h
    · subst h; simp [settleTime]
    · have := ih h
      simp [settleTime] at this ⊢
      omega

theorem allPromises_result_eq (ps : List (Prom ε α)) (h : ps ≠ []) :
    (allPromises (some ps)).result
      = match firstError ps with | some e => .error e | none => .ok () := by
  have hlen : ¬ ps.length = 0 := by simpa using h
  simp only [allPromises, hlen, if_false, errors_map_eq, find?_isSome_eq_findSome?,
    findSome?_id_map_errOf]
  cases hfe : firstError ps <;> simp [hfe]

theorem allPromises_time_ge (ps : List (Prom ε α)) (p : Prom ε α) (hp : p ∈ ps) :
    p.time ≤ (allPromises (some ps)).time := by
  have hlen : ¬ ps.length = 0 := by
    intro h
    rw [List.length_eq_zero] at h
    subst h; cases hp
  have hle := time_le_settleTime ps p hp
  simp only [allPromises, hlen, if_false, errors_map_eq, find?_isSome_eq_findSome?,
    findSome?_id_map_errOf]
  cases hfe : firstError ps <;>
    simpa [hfe, settleTime_map_getPromiseError] using hle

/-- C1: for every non-empty sequence of promises of which at least one
rejects, `allPromises` rejects only after every promise in the sequence has
settled (its settlement time dominates each input settlement time), and the
rejection reason equals the rejection of the first rejected promise in
original sequence order, discarding the rest. -/
theorem allPromises_waits_and_reports_first_error (ps : List (Prom ε α))
    (hne : ps ≠ []) (e : ε) (hfe : firstError ps = some e) :
    (allPromises (some ps)).result = .error e ∧
    ∀ p ∈ ps, p.time ≤ (allPromises (some ps)).time := by
  refine ⟨?_, fun p hp => allPromises_time_ge ps p hp⟩
  rw [allPromises_result_eq ps hne, hfe]

/-- Witness for C1 at a concrete input: three promises settling at times
3, 1, 2, the second and third rejected; the aggregate rejects with the
reason of the second promise (first in order) and settles at time 3. -/
theorem allPromises_waits_and_reports_first_error_witness :
    (allPromises (some [(⟨3, .ok 0⟩ : Prom Nat Nat), ⟨1, .error 7⟩, ⟨2, .error 9⟩])).result
        = .error 7 ∧
    ∀ p ∈ [(⟨3, .ok 0⟩ : Prom Nat Nat), ⟨1, .error 7⟩, ⟨2, .error 9⟩],
      p.time ≤ (allPromises (some [(⟨3, .ok 0⟩ : Prom Nat Nat), ⟨1, .error 7⟩, ⟨2, .error 9⟩])).time :=
  allPromises_waits_and_reports_first_error _ (by decide) 7 (by decide)

/-- C10: a `null` or `undefined` promises argument (both modelled by `none`,
absorbed by the guard `!promises`) does not throw and fulfils immediately,
exactly as an empty sequence does. -/
theorem allPromises_null_like_empty (ε α : Type) :
    allPromises (none : Option (List (Prom ε α))) = ⟨0, .ok ()⟩ ∧
    allPromises (none : Option (List (Prom ε α))) = allPromises (some ([] : List (Prom ε α))) :=
  ⟨rfl, rfl⟩

/-- C8: regardless of how many input promises reject,
`allPromisesIgnoringErrors` never rejects, and it fulfils only after all
input promises have settled (same waiting semantics as `allPromises`). -/
theorem allPromisesIgnoringErrors_never_rejects (promises : Option (List (Prom ε α))) :
    (∃ v, (allPromisesIgnoringErrors promises).result = .ok v) ∧
    ∀ ps, promises = some ps →
      ∀ p ∈ ps, p.time ≤ (allPromisesIgnoringErrors promises).time := by
  constructor
  · exact ⟨_, rfl⟩
  · rintro ps rfl p hp
    simpa [allPromisesIgnoringErrors, ignoreErrors] using allPromises_time_ge ps p hp

/-- Witness for C8 at a concrete input: both promises reject, yet the
aggregate fulfils, and it settles no earlier than the later input (time 4). -/
theorem allPromisesIgnoringErrors_never_rejects_witness :
    (∃ v, (allPromisesIgnoringErrors
        (some [(⟨4, .error 1⟩ : Prom Nat Nat), ⟨2, .error 2⟩])).result = .ok v) ∧
    (⟨4, Except.error 1⟩ : Prom Nat Nat).time
      ≤ (allPromisesIgnoringErrors
          (some [(⟨4, .error 1⟩ : Prom Nat Nat), ⟨2, .error 2⟩])).time :=
  ⟨(allPromisesIgnoringErrors_never_rejects _).1,
   (allPromisesIgnoringErrors_never_rejects _).2 _ rfl _ (by decide)⟩

/-- C9: `ignoreErrors` never re-throws: on a rejected promise it fulfils
with the fallback when one is given and with the no-value marker (`none`,
the JavaScript `undefined`) otherwise; on a fulfilled promise it fulfils
with the original value; in every case the returned promise fulfils. -/
theorem ignoreErrors_absorbs (p : Prom ε α) (fallback : Option α) :
    (∀ e, p.result = .error e → ignoreErrors p fallback = ⟨p.time, .ok fallback⟩) ∧
    (∀ v, p.result = .ok v → ignoreErrors p fallback = ⟨p.time, .ok (some v)⟩) ∧
    ∃ w, (ignoreErrors p fallback).result = .ok w := by
  refine ⟨fun e he => ?_, fun v hv => ?_, ?_⟩
  · simp [ignoreErrors, he]
  · simp [ignoreErrors, hv]
  · exact ⟨_, rfl⟩

/-- Witness for C9 at a concrete input: a promise rejected with reason 5 at
time 2 yields the fallback 8 when one is given and the no-value marker when
none is. -/
theorem ignoreErrors_absorbs_witness :
    ignoreErrors (⟨2, .error 5⟩ : Prom Nat Nat) (some 8) = ⟨2, .ok (some 8)⟩ ∧
    ignoreErrors (⟨2, .error 5⟩ : Prom Nat Nat) none = ⟨2, .ok none⟩ :=
  ⟨(ignoreErrors_absorbs _ _).1 5 rfl, (ignoreErrors_absorbs _ _).1 5 rfl⟩

/-!
Operational model of `timeoutPromise(promise, time)` of utils.ts.  The code
builds a new promise whose executor installs a timer and chains on the
wrapped promise:

* the timer callback runs `reject({timeout: true})` and then sets the flag
  `timedOut`;
* `resolveBeforeTimeout` returns early when `timedOut` is set and otherwise
  calls `resolve()` with NO argument, so the fulfilment value of the wrapped
  promise is discarded and the new promise fulfils with `undefined`;
* rejections of the wrapped promise are forwarded through `.catch(reject)`
  with no flag check, relying on the settle-once rule of native promises;
* `.finally(() => clearTimeout(timeout))` cancels the timer as soon as the
  wrapped promise settles.

The state below carries the settled outcome of the returned promise (its
value channel is `Option α`, `none` standing for `undefined`), the
`timedOut` flag and whether `clearTimeout` has run.  `settleOnce` embeds the
native settle-once rule.
-/

/-- Rejection reasons of the promise returned by `timeoutPromise`: the
distinguishable marker for `reject(\x7btimeout: true\x7d)`, or a forwarded
rejection reason of the wrapped promise. -/
inductive TimeoutReason (ε : Type)
  | timeoutMarker
  | original (e : ε)
deriving DecidableEq

/-- State of the promise returned by `timeoutPromise` together with the
closure variables of its executor. -/
structure TPState (ε α : Type) where
  settled : Option (Except (TimeoutReason ε) (Option α))
  timedOut : Bool
  timerCleared : Bool
deriving DecidableEq

/-- State just after the executor ran: nothing settled, no flag set, timer
pending. -/
def TPState.fresh : TPState ε α := ⟨none, false, false⟩

/-- Native promise rule: only the first resolve or reject takes effect. -/
def TPState.settleOnce (st : TPState ε α) (o : Except (TimeoutReason ε) (Option α)) :
    TPState ε α :=
  match st.settled with
  | none => { st with settled := some o }
  | some _ => st

/-- The two externally triggered callbacks: the timer firing, and the
wrapped promise settling with some outcome. -/
inductive TPEvent (ε α : Type)
  | timerFire
  | promiseSettle (r : Except ε α)
deriving DecidableEq

/-- One callback invocation of the `timeoutPromise` executor, translated
line by line from utils.ts.  A cleared timer never fires.  On fulfilment of
the wrapped promise, `resolveBeforeTimeout` checks `timedOut` and then calls
`resolve()` without argument, hence the outcome `.ok none`; afterwards the
`finally` handler clears the timer.  On rejection, `reject` is forwarded
unconditionally and the `finally` handler clears the timer. -/
def tpStep (st : TPState ε α) : TPEvent ε α → TPState ε α
  | .timerFire =>
    if st.timerCleared then st
    else { st.settleOnce (.error .timeoutMarker) with timedOut := true }
  | .promiseSettle (.ok _v) =>
    let st1 := if st.timedOut then st else st.settleOnce (.ok none)
    { st1 with timerCleared := true }
  | .promiseSettle (.error e) =>
    { st.settleOnce (.error (.original e)) with timerCleared := true }

/-- Runs the two callbacks of `timeoutPromise` in a given scheduler order
from the fresh executor state. -/
def tpRun (events : List (TPEvent ε α)) : TPState ε α :=
  events.foldl tpStep .fresh

/-- The scheduler orders that can occur for a wrapped promise settling at
`p.time` against a deadline of `time` milliseconds: the earlier callback
runs first, and at a tie either order is possible. -/
def tpOrders (p : Prom ε α) (time : Nat) : List (List (TPEvent ε α)) :=
  if p.time < time then [[.promiseSettle p.result, .timerFire]]
  else if time < p.time then [[.timerFire, .promiseSettle p.result]]
  else [[.promiseSettle p.result, .timerFire], [.timerFire, .promiseSettle p.result]]

/-- All final states `timeoutPromise(promise, time)` can reach, one per
possible scheduler order. -/
def timeoutPromise (p : Prom ε α) (time : Nat) : List (TPState ε α) :=
  (tpOrders p time).map tpRun

theorem tpBothOrdersSettle (ε α : Type) (r : Except ε α) :
    ((tpRun [.promiseSettle r, .timerFire] : TPState ε α).settled.isSome = true) ∧
    ((tpRun [.timerFire, .promiseSettle r] : TPState ε α).settled.isSome = true) := by
  cases r <;> exact ⟨rfl, rfl⟩

/-- C2: the wrapped promise fulfils with value 42 at time 1, well before the
deadline of 5, yet the promise returned by the code fulfils with `none`
(JavaScript `undefined`), not with the original success value, because
`resolveBeforeTimeout` calls `resolve()` without argument; this contradicts
the declared return type `Promise<T>` of the function. -/
theorem timeoutPromise_discards_resolution_value :
    timeoutPromise (⟨1, .ok 42⟩ : Prom Nat Nat) 5
      = [⟨some (.ok none), false, true⟩] ∧
    (some (Except.ok (some 42)) : Option (Except (TimeoutReason Nat) (Option Nat)))
      ≠ some (.ok none) := by
  exact ⟨rfl, by decide⟩

/-- C5: exactly one outcome is ever observed: (a) once the returned promise
has settled, no later callback changes the outcome; (b) when the timer fires
first, a later settlement of the wrapped promise is discarded and the
timeout marker stands; (c) when the wrapped promise settles first, the timer
is cleared and a subsequent fire leaves the state untouched, so it never
fires; (d) under every admissible scheduler order the returned promise does
settle. -/
theorem timeoutPromise_single_outcome (ε α : Type) :
    (∀ (st : TPState ε α) (o : Except (TimeoutReason ε) (Option α)) (ev : TPEvent ε α),
        st.settled = some o → (tpStep st ev).settled = some o) ∧
    (∀ r : Except ε α,
        (tpRun [.timerFire, .promiseSettle r] : TPState ε α).settled
          = some (.error .timeoutMarker)) ∧
    (∀ r : Except ε α,
        (tpStep (TPState.fresh : TPState ε α) (.promiseSettle r)).timerCleared = true ∧
        tpStep (tpStep (TPState.fresh : TPState ε α) (.promiseSettle r)) .timerFire
          = tpStep (TPState.fresh : TPState ε α) (.promiseSettle r)) ∧
    (∀ (p : Prom ε α) (t : Nat) (st : TPState ε α),
        st ∈ timeoutPromise p t → st.settled.isSome = true) := by
  refine ⟨?_, ?_, ?_, ?_⟩
  · intro st o ev h
    cases ev with
    | timerFire =>
      by_cases hc : st.timerCleared <;> simp [tpStep, TPState.settleOnce, hc, h]
    | promiseSettle r =>
      cases r with
      | ok v =>
        by_cases ht : st.timedOut <;> simp [tpStep, TPState.settleOnce, ht, h]
      | error e => simp [tpStep, TPState.settleOnce, h]
  · intro r
    cases r <;> rfl
  · intro r
    cases r <;> exact ⟨rfl, rfl⟩
  · intro p t st hst
    simp only [timeoutPromise, tpOrders] at hst
    split at hst
    · simp only [List.map_cons, List.map_nil, List.mem_singleton] at hst
      subst hst
      exact (tpBothOrdersSettle ε α p.result).1
    · split at hst
      · simp only [List.map_cons, List.map_nil, List.mem_singleton] at hst
        subst hst
        exact (tpBothOrdersSettle ε α p.result).2
      · simp only [List.map_cons, List.map_nil, List.mem_cons,
          List.not_mem_nil, or_false] at hst
        rcases hst with h | h <;> subst h
        · exact (tpBothOrdersSettle ε α p.result).1
        · exact (tpBothOrdersSettle ε α p.result).2

/-- Witness for C5 at concrete inputs: an already settled state is not
changed by a timer fire, and the single reachable state of a concrete
`timeoutPromise` run is settled. -/
theorem timeoutPromise_single_outcome_witness :
    (tpStep (⟨some (.ok none), false, false⟩ : TPState Nat Nat) .timerFire).settled
        = some (.ok none) ∧
    ((tpRun [.promiseSettle (.ok 42), .timerFire] : TPState Nat Nat).settled.isSome = true) :=
  ⟨(timeoutPromise_single_outcome Nat Nat).1 _ _ _ rfl,
   (timeoutPromise_single_outcome Nat Nat).2.2.2 ⟨1, .ok 42⟩ 5 _ (by decide)⟩

/-!
Model of `executeOrderedPromises(orderedPromisesData)` of utils.ts.  The
loop keeps a `dependency` promise, initially `Promise.resolve()`.  For each
entry it builds `promise = dependency.finally(cb)` where `cb` runs
`data.function()` inside a try/catch that logs and absorbs synchronous
throws, pushes `promise`, and, when the entry is `blocking`, replaces
`dependency` by `promise`.  It returns `allPromises` over the pushed list.

The JavaScript `finally` combinator starts `cb` when `dependency` settles,
waits for the promise `cb` returns, and then settles with the outcome of
`dependency` itself unless the promise returned by `cb` rejected, in which
case that rejection wins.  When `cb` throws synchronously, the catch inside
`cb` swallows it, logs `e.message`, and returns `undefined`, so the
combinator settles immediately with the outcome of `dependency`.
-/

/-- What `data.function()` does when invoked: either it throws
synchronously, or it returns a promise that settles after `dur`
milliseconds with the given outcome. -/
inductive TaskBehavior (ε : Type)
  | syncThrow (e : ε)
  | async (dur : Nat) (result : Except ε Unit)
deriving DecidableEq

/-- One entry of the `orderedPromisesData` argument: the function to run
and its `blocking` flag (absent in TypeScript means `false`). -/
structure OrderedPromiseData (ε : Type) where
  behavior : TaskBehavior ε
  blocking : Bool
deriving DecidableEq

/-- One loop iteration of `executeOrderedPromises`: from the current
`dependency` promise and one entry, the promise pushed onto the list, the
instant the task is started (when the dependency settles), and the error
logged by the catch branch, if any. -/
def orderedStep (dep : Prom ε Unit) (d : OrderedPromiseData ε) :
    Prom ε Unit × Nat × Option ε :=
  match d.behavior with
  | .syncThrow e => (⟨dep.time, dep.result⟩, dep.time, some e)
  | .async dur r =>
      (⟨dep.time + dur, match r with | .error e2 => .error e2 | .ok _ => dep.result⟩,
       dep.time, none)

/-- The observable data of one run of the loop: the pushed promises, the
start instant of every task, and the logged synchronous errors, all in
entry order. -/
structure OrderedRun (ε : Type) where
  promises : List (Prom ε Unit)
  starts : List Nat
  logs : List ε
deriving DecidableEq

/-- The loop of `executeOrderedPromises`, threading the `dependency`
promise through the entries. -/
def orderedLoop (dep : Prom ε Unit) : List (OrderedPromiseData ε) → OrderedRun ε
  | [] => ⟨[], [], []⟩
  | d :: ds =>
      let step := orderedStep dep d
      let rest := orderedLoop (if d.blocking then step.1 else dep) ds
      ⟨step.1 :: rest.promises, step.2.1 :: rest.starts, step.2.2.toList ++ rest.logs⟩

/-- Embeds `executeOrderedPromises(orderedPromisesData)`: run the loop from
the immediately fulfilled initial dependency and aggregate with
`allPromises`. -/
def executeOrderedPromises (ds : List (OrderedPromiseData ε)) : Prom ε Unit :=
  allPromises (some (orderedLoop ⟨0, .ok ()⟩ ds).promises)

/-- The sequence of the claim about scheduling: A blocking and taking 5
milliseconds, B non-blocking taking 1, C blocking taking 1, all
succeeding. -/
def scheduleTasks : List (OrderedPromiseData Nat) :=
  [⟨.async 5 (.ok ()), true⟩, ⟨.async 1 (.ok ()), false⟩, ⟨.async 1 (.ok ()), true⟩]

/-- Counterexample to C3 as stated: with A blocking (5 ms), B non-blocking
and C blocking, the code starts A at instant 0 but starts B only at instant
5, when A settles, because A is blocking and B is chained on A through
`dependency.finally`; so B does not start immediately when A starts. -/
theorem executeOrdered_B_starts_after_A_settles :
    (orderedLoop ⟨0, .ok ()⟩ scheduleTasks).starts = [0, 5, 5] ∧
    ¬ ((orderedLoop ⟨0, .ok ()⟩ scheduleTasks).starts.get? 1
        = (orderedLoop ⟨0, .ok ()⟩ scheduleTasks).starts.get? 0) := by
  exact ⟨by decide, by decide⟩

/-- C3 amended: for tasks [A(blocking), B(non-blocking), C(blocking)] with
arbitrary durations and outcomes, A starts immediately; B starts only when A
has fully settled, because A is blocking; C also starts when A settles and
does not wait for B, because B is non-blocking; and the overall future
settles only after A, B and C have all settled. -/
theorem executeOrdered_blocking_schedule (dA dB dC : Nat)
    (rA rB rC : Except Nat Unit) :
    (orderedLoop ⟨0, .ok ()⟩
        [⟨.async dA rA, true⟩, ⟨.async dB rB, false⟩, ⟨.async dC rC, true⟩]).starts
      = [0, dA, dA] ∧
    ∀ p ∈ (orderedLoop ⟨0, .ok ()⟩
        [⟨.async dA rA, true⟩, ⟨.async dB rB, false⟩, ⟨.async dC rC, true⟩]).promises,
      p.time ≤ (executeOrderedPromises
        [⟨.async dA rA, true⟩, ⟨.async dB rB, false⟩, ⟨.async dC rC, true⟩]).time := by
  refine ⟨?_, fun p hp => allPromises_time_ge _ p hp⟩
  simp [orderedLoop, orderedStep]

/-- Witness for C3 amended at concrete durations 5, 1, 1: the starts are
0, 5, 5 and the promise of C, which settles at instant 6, settles no later
than the aggregate. -/
theorem executeOrdered_blocking_schedule_witness :
    (orderedLoop ⟨0, .ok ()⟩ scheduleTasks).starts = [0, 5, 5] ∧
    (6 : Nat) ≤ (executeOrderedPromises scheduleTasks).time :=
  ⟨(executeOrdered_blocking_schedule 5 1 1 (.ok ()) (.ok ()) (.ok ())).1,
   (executeOrdered_blocking_schedule 5 1 1 (.ok ()) (.ok ()) (.ok ())).2
     ⟨6, .ok ()⟩ (by decide)⟩

/-- The error a task throws synchronously when started, if any. -/
def syncErrOf (d : OrderedPromiseData ε) : Option ε :=
  match d.behavior with
  | .syncThrow e => some e
  | .async _ _ => none

/-- The asynchronous rejection reason of a task, if any. -/
def asyncErrOf (d : OrderedPromiseData ε) : Option ε :=
  match d.behavior with
  | .async _ (.error e) => some e
  | _ => none

theorem orderedLoop_logs (dep : Prom ε Unit) (ds : List (OrderedPromiseData ε)) :
    (orderedLoop dep ds).logs = ds.filterMap syncErrOf := by
  induction ds generalizing dep with
  | nil => rfl
  | cons d t ih =>
    cases hb : d.behavior <;>
      simp [orderedLoop, orderedStep, syncErrOf, hb, ih, List.filterMap_cons]

theorem orderedLoop_starts_length (dep : Prom ε Unit) (ds : List (OrderedPromiseData ε)) :
    (orderedLoop dep ds).starts.length = ds.length := by
  induction ds generalizing dep with
  | nil => rfl
  | cons d t ih => simp [orderedLoop, ih]

theorem orderedLoop_errors (Q : ε → Prop) (ds : List (OrderedPromiseData ε)) :
    ∀ dep : Prom ε Unit,
      (∀ e, dep.result = .error e → Q e) →
      (∀ d ∈ ds, ∀ e, asyncErrOf d = some e → Q e) →
      ∀ p ∈ (orderedLoop dep ds).promises, ∀ e, p.result = .error e → Q e := by
  induction ds with
  | nil =>
    intro dep _ _ p hp
    cases hp
  | cons d t ih =>
    intro dep hdep hQ p hp e hpe
    have hstep : ∀ e2, (orderedStep dep d).1.result = Except.error e2 → Q e2 := by
      intro e2 h2
      cases hb : d.behavior with
      | syncThrow e0 =>
        simp only [orderedStep, hb] at h2
        exact hdep e2 h2
      | async dur r =>
        cases r with
        | error e3 =>
          simp only [orderedStep, hb, Except.error.injEq] at h2
          subst h2
          exact hQ d (List.mem_cons_self d t) _ (by simp [asyncErrOf, hb])
        | ok v =>
          simp only [orderedStep, hb] at h2
          exact hdep e2 h2
    simp only [orderedLoop] at hp
    rcases List.mem_cons.mp hp with h | h
    · subst h
      exact hstep e hpe
    · have hdep2 : ∀ e2,
          (if d.blocking then (orderedStep dep d).1 else dep).result = Except.error e2 → Q e2 := by
        by_cases hbl : d.blocking <;> simp only [hbl, if_true, if_false]
        · exact hstep
        · exact hdep
      exact ih _ hdep2 (fun d2 hd2 => hQ d2 (List.mem_cons_of_mem d hd2)) p h e hpe

theorem firstError_mem (ps : List (Prom ε α)) (e : ε) (h : firstError ps = some e) :
    ∃ p ∈ ps, p.result = Except.error e := by
  induction ps with
  | nil => cases h
  | cons p t ih =>
    simp only [firstError, List.findSome?] at h
    cases hE : errOf p with
    | some e0 =>
      rw [hE] at h
      cases h
      refine ⟨p, List.mem_cons_self p t, ?_⟩
      simp only [errOf] at hE
      cases hr : p.result <;> rw [hr] at hE <;> simp at hE
      rw [hE]
    | none =>
      rw [hE] at h
      rcases ih h with ⟨q, hq, hqe⟩
      exact ⟨q, List.mem_cons_of_mem p hq, hqe⟩

/-- C4: for every task list, every synchronously thrown error is caught and
logged (the log equals the synchronous errors in entry order), every task is
still scheduled and started (one start instant per entry), and when the
overall future rejects, the surfaced reason is an asynchronous rejection of
some task, never a synchronously thrown error: the overall future is not
rejected on account of a synchronous throw. -/
theorem executeOrdered_sync_throws_absorbed (ds : List (OrderedPromiseData ε)) :
    (orderedLoop ⟨0, .ok ()⟩ ds).logs = ds.filterMap syncErrOf ∧
    (orderedLoop ⟨0, .ok ()⟩ ds).starts.length = ds.length ∧
    ∀ e, (executeOrderedPromises ds).result = .error e → e ∈ ds.filterMap asyncErrOf := by
  refine ⟨orderedLoop_logs _ ds, orderedLoop_starts_length _ ds, ?_⟩
  intro e he
  by_cases hps : (orderedLoop (⟨0, .ok ()⟩ : Prom ε Unit) ds).promises = []
  · rw [executeOrderedPromises, hps] at he
    simp [allPromises] at he
  · rw [executeOrderedPromises] at he
    rw [allPromises_result_eq _ hps] at he
    cases hfe : firstError (orderedLoop (⟨0, .ok ()⟩ : Prom ε Unit) ds).promises with
    | none => rw [hfe] at he; cases he
    | some e1 =>
      rw [hfe] at he
      injection he with h12
      subst h12
      rcases firstError_mem _ _ hfe with ⟨p, hp, hpe⟩
      refine orderedLoop_errors (fun x => x ∈ ds.filterMap asyncErrOf) ds _ ?_ ?_ p hp _ hpe
      · intro e0 h0
        cases h0
      · intro d2 hd2 e0 h0
        exact List.mem_filterMap.mpr ⟨d2, hd2, h0⟩

/-- Concrete list for the C4 witness: a blocking task throwing 9
synchronously, followed by a task rejecting asynchronously with 7. -/
def syncTasks : List (OrderedPromiseData Nat) :=
  [⟨.syncThrow 9, true⟩, ⟨.async 2 (.error 7), false⟩]

/-- Witness for C4 at a concrete input: the synchronous error 9 is logged,
both tasks are started, and the aggregate failure 7 comes from the
asynchronous rejection, not from the synchronous throw. -/
theorem executeOrdered_sync_throws_absorbed_witness :
    (orderedLoop ⟨0, .ok ()⟩ syncTasks).logs = [9] ∧
    (orderedLoop ⟨0, .ok ()⟩ syncTasks).starts.length = 2 ∧
    (7 : Nat) ∈ syncTasks.filterMap asyncErrOf :=
  ⟨by rw [(executeOrdered_sync_throws_absorbed syncTasks).1]; decide,
   by rw [(executeOrdered_sync_throws_absorbed syncTasks).2.1]; decide,
   (executeOrdered_sync_throws_absorbed syncTasks).2.2 7 (by decide)⟩

/-!
Model of `promiseDefer()` of utils.ts.  The function runs the `Promise`
executor eagerly, capturing `resolve` and `reject` on the returned object;
the only behaviour of the primitive is that of the captured callbacks, which
obey the native settle-once rule: the first call fixes the outcome and every
later call is a silent no-op.
-/

/-- A call on the object returned by `promiseDefer`: the captured `resolve`
with a value, or the captured `reject` with a reason. -/
inductive DeferOp (ε α : Type)
  | res (v : α)
  | rej (e : ε)
deriving DecidableEq

/-- The outcome a call would impose on the underlying promise. -/
def deferOutcome : DeferOp ε α → Except ε α
  | .res v => .ok v
  | .rej e => .error e

/-- One call of the captured `resolve` or `reject`: the state is the
settled outcome of the promise built by `new Promise` inside `promiseDefer`;
the native settle-once rule makes every call after the first a no-op, and no
call throws because the step is a total function. -/
def deferStep (st : Option (Except ε α)) (op : DeferOp ε α) : Option (Except ε α) :=
  match st with
  | none => some (deferOutcome op)
  | some o => some o

/-- Embeds `promiseDefer()`: the promise starts unsettled. -/
def promiseDefer : Option (Except ε α) := none

/-- Runs a sequence of calls on the deferred object. -/
def deferRun (st : Option (Except ε α)) (ops : List (DeferOp ε α)) :
    Option (Except ε α) :=
  ops.foldl deferStep st

theorem deferRun_settled (o : Except ε α) (ops : List (DeferOp ε α)) :
    deferRun (some o) ops = some o := by
  induction ops with
  | nil => rfl
  | cons op t ih => simpa [deferRun, deferStep] using ih

/-- C6: on a fresh deferred, only the first call to resolve or reject takes
effect and the underlying promise settles exactly once with the outcome of
that first call, every later call being a no-op that does not throw; in
particular resolve(1), resolve(2), reject of a reason leaves the promise
settled with value 1 only. -/
theorem promiseDefer_first_call_wins (ε α : Type) (op : DeferOp ε α)
    (ops : List (DeferOp ε α)) :
    deferRun promiseDefer (op :: ops) = some (deferOutcome op) ∧
    deferRun (promiseDefer : Option (Except String Nat))
        [.res 1, .res 2, .rej "x"] = some (.ok 1) := by
  constructor
  · show List.foldl deferStep (deferStep promiseDefer op) ops = some (deferOutcome op)
    rw [show deferStep (promiseDefer : Option (Except ε α)) op
          = some (deferOutcome op) from rfl]
    exact deferRun_settled (deferOutcome op) ops
  · rfl

/-!
Model of `getUniqueId(name)` of utils.ts.  The registry `uniqueIds` maps
names to counters; an absent entry is the JavaScript `undefined`.  The code
first resets a falsy entry (absent or 0) to 0 and then pre-increments it,
returning the new value.
-/

/-- JavaScript truthiness test `!this.uniqueIds[name]` on a numeric entry:
an absent entry and the number 0 are falsy. -/
def jsFalsy (v : Option Nat) : Bool := v.getD 0 == 0

/-- Embeds `getUniqueId(name)`: returns the issued id together with the
updated registry. -/
def getUniqueId (uniqueIds : String → Option Nat) (name : String) :
    Nat × (String → Option Nat) :=
  let ids := if jsFalsy (uniqueIds name)
    then fun n => if n = name then some 0 else uniqueIds n
    else uniqueIds
  let newVal := (ids name).getD 0 + 1
  (newVal, fun n => if n = name then some newVal else ids n)

/-- The values returned by a sequence of `getUniqueId` calls. -/
def uidRun (st : String → Option Nat) : List String → List Nat
  | [] => []
  | n :: rest => (getUniqueId st n).1 :: uidRun (getUniqueId st n).2 rest

/-- The registry after a sequence of `getUniqueId` calls. -/
def uidState (st : String → Option Nat) : List String → (String → Option Nat)
  | [] => st
  | n :: rest => uidState (getUniqueId st n).2 rest

theorem getUniqueId_fst (st : String → Option Nat) (k : String) :
    (getUniqueId st k).1 = (st k).getD 0 + 1 := by
  by_cases h : jsFalsy (st k)
  · have h0 : (st k).getD 0 = 0 := by simpa [jsFalsy] using h
    simp [getUniqueId, h, h0]
  · simp [getUniqueId, h]

theorem getUniqueId_snd_self (st : String → Option Nat) (k : String) :
    (getUniqueId st k).2 k = some ((getUniqueId st k).1) := by
  simp [getUniqueId]

theorem getUniqueId_snd_other (st : String → Option Nat) (k n : String) (hn : n ≠ k) :
    (getUniqueId st k).2 n = st n := by
  by_cases h : jsFalsy (st k) <;> simp [getUniqueId, h, hn]

theorem uidState_getD (l : List String) :
    ∀ (st : String → Option Nat) (n : String),
      (uidState st l n).getD 0 = (st n).getD 0 + l.count n := by
  induction l with
  | nil => intro st n; simp [uidState]
  | cons k t ih =>
    intro st n
    simp only [uidState]
    rw [ih]
    by_cases hn : n = k
    · subst hn
      rw [getUniqueId_snd_self]
      simp [getUniqueId_fst, List.count_cons]
      omega
    · rw [getUniqueId_snd_other st k n hn]
      simp [List.count_cons, hn]

theorem uidRun_append (st : String → Option Nat) (l l2 : List String) :
    uidRun st (l ++ l2) = uidRun st l ++ uidRun (uidState st l) l2 := by
  induction l generalizing st with
  | nil => rfl
  | cons k t ih => simp [uidRun, uidState, ih]

/-- C7: starting from the empty registry, after any prior call sequence a
call for key k returns one more than the number of prior calls for k, so
the n-th call for a given key returns n, ids start at 1 and increase
strictly per key, and counters for distinct keys are independent; in
particular three calls for one key followed by one call for another return
1, 2, 3 and 1. -/
theorem getUniqueId_counts (l : List String) (k : String) :
    (uidRun (fun _ => none) (l ++ [k])).getLast? = some (l.count k + 1) ∧
    uidRun (fun _ => none) [String.mk ['k'], String.mk ['k'], String.mk ['k'],
        String.mk ['o']] = [1, 2, 3, 1] := by
  constructor
  · rw [uidRun_append]
    have hlast : ∀ (xs : List Nat) (a : Nat), (xs ++ [a]).getLast? = some a := by
      intro xs a
      rw [List.getLast?_append_cons]
      rfl
    have hrun : uidRun (uidState (fun _ => none) l) [k] = [l.count k + 1] := by
      simp only [uidRun, getUniqueId_fst]
      rw [uidState_getD]
      simp
    rw [hrun]
    exact hlast _ _
  · decide

end MoodleUtils
